import Mathlib

/-! # Verification of the monkey-lang lexical analyzer

Shallow embedding of `src/interpreter/src/lexical_analyzer.rs` (the tokenizer
of the monkey-lang interpreter) together with proofs of the specified
properties.  Rust panics (`unwrap`, `assert!`, out-of-bounds indexing) are
modelled by `Option`/`LoopOut.panic`; the driver loop is given explicit fuel,
with exhaustion marked by the (provably unreachable) `LoopOut.fuelOut`.
-/

namespace MonkeyLex

/-- The token type of the lexer (`enum Token` in the source).  `Integer`
carries the parsed `i32` value, modelled as `Int` (the value is produced only
by the range-checked `parseI32`). -/
inductive Token where
  | Identifier (data : String)
  | Integer (data : Int)
  | Boolean (data : Bool)
  | Let
  | Fn
  | If
  | Else
  | Plus
  | Minus
  | Star
  | Slash
  | Assignment
  | Equals
  | Semicolon
  | LeftParen
  | RightParen
  | LeftBrace
  | RightBrace
  deriving DecidableEq

/-- The canonical `<kind, literal>` rendering of a token
(`impl fmt::Debug for Token` in the source). -/
def Token.debugFmt : Token → String
  | .Identifier data => "<identifier, " ++ data ++ ">"
  | .Integer data => "<integer, " ++ toString data ++ ">"
  | .Boolean data => "<boolean, " ++ toString data ++ ">"
  | .Let => "<let, let>"
  | .Fn => "<fn, fn>"
  | .If => "<if, if>"
  | .Else => "<else, else>"
  | .Plus => "<+, +>"
  | .Minus => "<-, ->"
  | .Star => "<*, *>"
  | .Slash => "</, />"
  | .Assignment => "<=, =>"
  | .Equals => "<==, ==>"
  | .Semicolon => "<;, ;>"
  | .LeftParen => "<(, (>"
  | .RightParen => "<), )>"
  | .LeftBrace => "<\x7b, \x7b>"
  | .RightBrace => "<\x7d, \x7d>"

/-- Embeds Rust `char::is_ascii_whitespace`: space, horizontal tab, newline,
form feed, carriage return. -/
def isAsciiWhitespace (c : Char) : Bool :=
  c = ' ' || c = '\t' || c = '\n' || c = '\x0c' || c = '\r'

/-- Embeds Rust `char::is_ascii_alphabetic`. -/
def isAsciiAlphabetic (c : Char) : Bool :=
  ('A' ≤ c && c ≤ 'Z') || ('a' ≤ c && c ≤ 'z')

/-- Embeds Rust `char::is_ascii_digit`. -/
def isAsciiDigit (c : Char) : Bool :=
  '0' ≤ c && c ≤ '9'

/-- Embeds Rust `char::is_ascii_alphanumeric`. -/
def isAsciiAlphanumeric (c : Char) : Bool :=
  isAsciiAlphabetic c || isAsciiDigit c

/-- Code-point ranges above U+007F whose characters lie in the Unicode
general categories Nd, Nl or No — the non-ASCII part of Rust
`char::is_numeric`.  Transcribed from the Unicode character database. -/
def unicodeNumberRanges : List (Nat × Nat) :=
  [(0xB2, 0xB3), (0xB9, 0xB9), (0xBC, 0xBE),
   (0x660, 0x669), (0x6F0, 0x6F9), (0x7C0, 0x7C9),
   (0x966, 0x96F), (0x9E6, 0x9EF), (0x9F4, 0x9F9),
   (0xA66, 0xA6F), (0xAE6, 0xAEF),
   (0xB66, 0xB6F), (0xB72, 0xB77), (0xBE6, 0xBF2),
   (0xC66, 0xC6F), (0xC78, 0xC7E), (0xCE6, 0xCEF),
   (0xD58, 0xD5E), (0xD66, 0xD78), (0xDE6, 0xDEF),
   (0xE50, 0xE59), (0xED0, 0xED9), (0xF20, 0xF33),
   (0x1040, 0x1049), (0x1090, 0x1099), (0x1369, 0x137C),
   (0x16EE, 0x16F0), (0x17E0, 0x17E9), (0x17F0, 0x17F9),
   (0x1810, 0x1819), (0x1946, 0x194F), (0x19D0, 0x19DA),
   (0x1A80, 0x1A89), (0x1A90, 0x1A99), (0x1B50, 0x1B59),
   (0x1BB0, 0x1BB9), (0x1C40, 0x1C49), (0x1C50, 0x1C59),
   (0x2070, 0x2070), (0x2074, 0x2079), (0x2080, 0x2089),
   (0x2150, 0x2182), (0x2185, 0x2189),
   (0x2460, 0x249B), (0x24EA, 0x24FF), (0x2776, 0x2793),
   (0x2CFD, 0x2CFD), (0x3007, 0x3007), (0x3021, 0x3029),
   (0x3038, 0x303A), (0x3192, 0x3195), (0x3220, 0x3229),
   (0x3248, 0x324F), (0x3251, 0x325F), (0x3280, 0x3289),
   (0x32B1, 0x32BF), (0xA620, 0xA629), (0xA6E6, 0xA6EF),
   (0xA830, 0xA835), (0xA8D0, 0xA8D9), (0xA900, 0xA909),
   (0xA9D0, 0xA9D9), (0xA9F0, 0xA9F9), (0xAA50, 0xAA59),
   (0xABF0, 0xABF9), (0xFF10, 0xFF19),
   (0x10107, 0x10133), (0x10140, 0x10178), (0x1018A, 0x1018B),
   (0x102E1, 0x102FB), (0x10320, 0x10323), (0x10341, 0x10341),
   (0x1034A, 0x1034A), (0x103D1, 0x103D5), (0x104A0, 0x104A9),
   (0x10858, 0x1085F), (0x10879, 0x1087F), (0x108A7, 0x108AF),
   (0x108FB, 0x108FF), (0x10916, 0x1091B), (0x109BC, 0x109BD),
   (0x109C0, 0x109CF), (0x109D2, 0x109FF), (0x10A40, 0x10A48),
   (0x10A7D, 0x10A7E), (0x10A9D, 0x10A9F), (0x10AEB, 0x10AEF),
   (0x10B58, 0x10B5F), (0x10B78, 0x10B7F), (0x10BA9, 0x10BAF),
   (0x10CFA, 0x10CFF), (0x10D30, 0x10D39), (0x10E60, 0x10E7E),
   (0x10F1D, 0x10F26), (0x10F51, 0x10F54), (0x10FC5, 0x10FCB),
   (0x11052, 0x1106F), (0x110F0, 0x110F9), (0x11136, 0x1113F),
   (0x111D0, 0x111D9), (0x111E1, 0x111F4), (0x112F0, 0x112F9),
   (0x11450, 0x11459), (0x114D0, 0x114D9), (0x11650, 0x11659),
   (0x116C0, 0x116C9), (0x11730, 0x1173B), (0x118E0, 0x118F2),
   (0x11C50, 0x11C6C), (0x11D50, 0x11D59), (0x11DA0, 0x11DA9),
   (0x11FC0, 0x11FD4), (0x12400, 0x1246E), (0x16A60, 0x16A69),
   (0x16B50, 0x16B59), (0x16B5B, 0x16B61), (0x16E80, 0x16E96),
   (0x1D2E0, 0x1D2F3), (0x1D360, 0x1D378), (0x1D7CE, 0x1D7FF),
   (0x1E140, 0x1E149), (0x1E2F0, 0x1E2F9), (0x1E8C7, 0x1E8CF),
   (0x1E950, 0x1E959), (0x1EC71, 0x1ECAB), (0x1ECAD, 0x1ECAF),
   (0x1ECB1, 0x1ECB4), (0x1ED01, 0x1ED2D), (0x1ED2F, 0x1ED3D),
   (0x1F100, 0x1F10C), (0x1FBF0, 0x1FBF9)]

/-- Embeds Rust `char::is_numeric`: true for the ASCII digits and for
code points above U+007F in the Unicode number categories Nd, Nl, No. -/
def isNumericChar (c : Char) : Bool :=
  isAsciiDigit c ||
    (0x7f < c.toNat &&
      unicodeNumberRanges.any (fun r => r.1 ≤ c.toNat && c.toNat ≤ r.2))

/-- Decimal value of a digit run (the accumulation performed by
`str::parse::<i32>` on a well-formed numeral). -/
def digitsToInt (ds : List Char) : Int :=
  ds.foldl (fun a c => a * 10 + ((c.toNat - '0'.toNat : Nat) : Int)) 0

/-- Embeds `str::parse::<i32>` (`i32::from_str`): an optional sign followed by
at least one ASCII decimal digit, with the value required to fit the 32-bit
signed range; `none` models `Err`. -/
def parseI32 (s : String) : Option Int :=
  let cs := s.toList
  let signDigits : Bool × List Char :=
    match cs with
    | '+' :: rest => (false, rest)
    | '-' :: rest => (true, rest)
    | _ => (false, cs)
  let ds := signDigits.2
  if ds = [] then none
  else if ds.all isAsciiDigit then
    let v : Int := if signDigits.1 then -(digitsToInt ds) else digitsToInt ds
    if -(2 ^ 31) ≤ v ∧ v ≤ 2 ^ 31 - 1 then some v else none
  else none

/-- The punctuation table built in `Tokenizer::new` (a `HashMap` in the
source; keys are distinct, so an association list with first-match lookup has
the same lookup function). -/
def punctuation_to_token : List (String × Token) :=
  [("+", .Plus), ("-", .Minus), ("*", .Star), ("/", .Slash),
   ("=", .Assignment), ("==", .Equals), (";", .Semicolon),
   ("(", .LeftParen), (")", .RightParen),
   ("\x7b", .LeftBrace), ("\x7d", .RightBrace)]

/-- The keyword table built in `Tokenizer::new`. -/
def keyword_to_token : List (String × Token) :=
  [("true", .Boolean true), ("false", .Boolean false),
   ("let", .Let), ("fn", .Fn), ("if", .If), ("else", .Else)]

/-- Embeds `HashMap::get` on the embedded association-list tables. -/
def lookupTable (table : List (String × Token)) (key : String) : Option Token :=
  match table with
  | [] => none
  | (k, v) :: rest => if k = key then some v else lookupTable rest key

/-- The `Tokenizer` struct: remaining input plus the two classification
tables. -/
structure Tokenizer where
  remaining_input : List Char
  punctuation_to_token : List (String × Token)
  keyword_to_token : List (String × Token)
  deriving DecidableEq

/-- Embeds `Tokenizer::new`. -/
def Tokenizer.new (input : String) : Tokenizer :=
  ⟨input.toList, MonkeyLex.punctuation_to_token, MonkeyLex.keyword_to_token⟩

/-- Embeds `Tokenizer::skip_whitespace`: drop the maximal leading run of ASCII
whitespace from the remaining input. -/
def skip_whitespace (t : Tokenizer) : Tokenizer :=
  { t with remaining_input := t.remaining_input.dropWhile isAsciiWhitespace }

/-- Embeds `Tokenizer::chop_identifer_or_keyword_token`.  `none` models a panic
(the `assert!` that the lead character is ASCII alphabetic, or indexing an
empty buffer). -/
def chop_identifer_or_keyword_token (t : Tokenizer) : Option (Token × Tokenizer) :=
  match t.remaining_input with
  | [] => none
  | c :: _ =>
    if isAsciiAlphabetic c then
      let data := String.mk (t.remaining_input.takeWhile isAsciiAlphanumeric)
      let rest := t.remaining_input.dropWhile isAsciiAlphanumeric
      some (match lookupTable t.keyword_to_token data with
            | none => Token.Identifier data
            | some keyword_token => keyword_token,
            { t with remaining_input := rest })
    else
      none

/-- Embeds `Tokenizer::chop_integer_token`.  `none` models the panic of
`parse::<i32>().unwrap()` when the maximal numeric run is not an in-range
decimal numeral. -/
def chop_integer_token (t : Tokenizer) : Option (Token × Tokenizer) :=
  let integer_data_string := String.mk (t.remaining_input.takeWhile isNumericChar)
  let rest := t.remaining_input.dropWhile isNumericChar
  match parseI32 integer_data_string with
  | none => none
  | some integer_data =>
    some (Token.Integer integer_data, { t with remaining_input := rest })

/-- Embeds `Tokenizer::is_current_character_punctuation` (only called on nonempty
remaining input; the `[]` case is unreachable there). -/
def is_current_character_punctuation (t : Tokenizer) : Bool :=
  match t.remaining_input with
  | [] => false
  | c :: _ => (lookupTable t.punctuation_to_token (String.mk [c])).isSome

/-- Embeds `Tokenizer::chop_punctuation_token`: two-character lookahead for `==`
first, then the single-character path.  `none` models the `unwrap` panic on a
failed table lookup (unreachable under the caller's guard). -/
def chop_punctuation_token (t : Tokenizer) : Option (Token × Tokenizer) :=
  match t.remaining_input with
  | [] => none
  | [c1] =>
    match lookupTable t.punctuation_to_token (String.mk [c1]) with
    | none => none
    | some tok => some (tok, { t with remaining_input := [] })
  | c1 :: c2 :: rest =>
    if c1 = '=' && c2 = '=' then
      match lookupTable t.punctuation_to_token "==" with
      | none => none
      | some tok => some (tok, { t with remaining_input := rest })
    else
      match lookupTable t.punctuation_to_token (String.mk [c1]) with
      | none => none
      | some tok => some (tok, { t with remaining_input := c2 :: rest })

/-- Embeds `Tokenizer::get_next_token`.  The outer `Option` models a panic inside
one of the chop functions; `some (none, t)` models returning `None` (end of
stream or an unrecognized lead character), with the whitespace already
consumed from the state. -/
def get_next_token (t : Tokenizer) : Option (Option Token × Tokenizer) :=
  let t1 := skip_whitespace t
  match t1.remaining_input with
  | [] => some (none, t1)
  | c :: _ =>
    if isAsciiAlphabetic c then
      (chop_identifer_or_keyword_token t1).map (fun r => (some r.1, r.2))
    else if isNumericChar c then
      (chop_integer_token t1).map (fun r => (some r.1, r.2))
    else if is_current_character_punctuation t1 then
      (chop_punctuation_token t1).map (fun r => (some r.1, r.2))
    else
      some (none, t1)

/-- Result of a tokenization pass: a Rust panic, a normal token list, or
exhaustion of the (artificial) fuel — the last is provably unreachable for
the fuel `tokenize` supplies. -/
inductive LoopOut where
  | panic
  | done (tokens : List Token)
  | fuelOut
  deriving DecidableEq

/-- The driver loop of `tokenize` (`while let Some(token) = ...`), with
explicit fuel standing in for the termination argument. -/
def tokenize_loop : Nat → Tokenizer → LoopOut
  | 0, _ => .fuelOut
  | fuel + 1, t =>
    match get_next_token t with
    | none => .panic
    | some (none, _) => .done []
    | some (some token, t') =>
      match tokenize_loop fuel t' with
      | .done tokens => .done (token :: tokens)
      | r => r

/-- Embeds `tokenize`: run the driver loop from a fresh tokenizer.  One token
consumes at least one character, so `length + 1` units of fuel always
suffice. -/
def tokenize (input : String) : LoopOut :=
  tokenize_loop (input.toList.length + 1) (Tokenizer.new input)

/-- Scanner state mid-pass: arbitrary remaining input, the standard tables. -/
def mkState (cs : List Char) : Tokenizer :=
  ⟨cs, MonkeyLex.punctuation_to_token, MonkeyLex.keyword_to_token⟩

/-! ## List helper lemmas -/

theorem dropWhile_append_of_all {p : Char → Bool} {l₁ : List Char} (l₂ : List Char)
    (h : ∀ a ∈ l₁, p a) : (l₁ ++ l₂).dropWhile p = l₂.dropWhile p := by
  induction l₁ with
  | nil => simp
  | cons a l ih =>
    simp only [List.cons_append, List.dropWhile_cons, h a (l.mem_cons_self a)]
    exact ih (fun x hx => h x (List.mem_cons_of_mem _ hx))

theorem takeWhile_append_of_all {p : Char → Bool} {l₁ : List Char} (l₂ : List Char)
    (h : ∀ a ∈ l₁, p a) : (l₁ ++ l₂).takeWhile p = l₁ ++ l₂.takeWhile p := by
  induction l₁ with
  | nil => simp
  | cons a l ih =>
    simp only [List.cons_append, List.takeWhile_cons, h a (l.mem_cons_self a)]
    simp [ih (fun x hx => h x (List.mem_cons_of_mem _ hx))]

/-- The remaining characters do not extend a `p`-run: either the input is
exhausted or the next character falls outside the class `p`. -/
def stopsRun (p : Char → Bool) : List Char → Bool
  | [] => true
  | c :: _ => !p c

theorem takeWhile_eq_nil_of_stops {p : Char → Bool} {l : List Char}
    (h : stopsRun p l = true) : l.takeWhile p = [] := by
  cases l with
  | nil => rfl
  | cons c cs =>
    simp only [stopsRun, Bool.not_eq_true'] at h
    simp [List.takeWhile_cons, h]

theorem dropWhile_eq_self_of_stops {p : Char → Bool} {l : List Char}
    (h : stopsRun p l = true) : l.dropWhile p = l := by
  cases l with
  | nil => rfl
  | cons c cs =>
    simp only [stopsRun, Bool.not_eq_true'] at h
    simp [List.dropWhile_cons, h]

theorem takeWhile_run {p : Char → Bool} {run rest : List Char}
    (hall : ∀ a ∈ run, p a) (hstop : stopsRun p rest = true) :
    (run ++ rest).takeWhile p = run ∧ (run ++ rest).dropWhile p = rest := by
  constructor
  · rw [takeWhile_append_of_all _ hall, takeWhile_eq_nil_of_stops hstop,
      List.append_nil]
  · rw [dropWhile_append_of_all _ hall, dropWhile_eq_self_of_stops hstop]

/-! ## Branch characterizations of `get_next_token` -/

theorem skip_whitespace_mk (rem ptab ktab) :
    skip_whitespace ⟨rem, ptab, ktab⟩ =
      ⟨rem.dropWhile isAsciiWhitespace, ptab, ktab⟩ := rfl

theorem get_next_token_empty {rem : List Char} (ptab ktab)
    (hws : rem.dropWhile isAsciiWhitespace = []) :
    get_next_token ⟨rem, ptab, ktab⟩ = some (none, ⟨[], ptab, ktab⟩) := by
  simp [get_next_token, skip_whitespace, hws]

theorem get_next_token_alpha {rem : List Char} {c : Char} {cs : List Char}
    (ptab ktab) (hws : rem.dropWhile isAsciiWhitespace = c :: cs)
    (ha : isAsciiAlphabetic c = true) :
    get_next_token ⟨rem, ptab, ktab⟩ =
      (chop_identifer_or_keyword_token ⟨c :: cs, ptab, ktab⟩).map
        (fun r => (some r.1, r.2)) := by
  simp [get_next_token, skip_whitespace, hws, ha]

theorem get_next_token_numeric {rem : List Char} {c : Char} {cs : List Char}
    (ptab ktab) (hws : rem.dropWhile isAsciiWhitespace = c :: cs)
    (ha : isAsciiAlphabetic c = false) (hn : isNumericChar c = true) :
    get_next_token ⟨rem, ptab, ktab⟩ =
      (chop_integer_token ⟨c :: cs, ptab, ktab⟩).map
        (fun r => (some r.1, r.2)) := by
  simp [get_next_token, skip_whitespace, hws, ha, hn]

theorem get_next_token_punct {rem : List Char} {c : Char} {cs : List Char}
    (ptab ktab) (hws : rem.dropWhile isAsciiWhitespace = c :: cs)
    (ha : isAsciiAlphabetic c = false) (hn : isNumericChar c = false)
    (hp : is_current_character_punctuation ⟨c :: cs, ptab, ktab⟩ = true) :
    get_next_token ⟨rem, ptab, ktab⟩ =
      (chop_punctuation_token ⟨c :: cs, ptab, ktab⟩).map
        (fun r => (some r.1, r.2)) := by
  simp [get_next_token, skip_whitespace, hws, ha, hn, hp]

theorem get_next_token_unrecognized {rem : List Char} {c : Char} {cs : List Char}
    (ptab ktab) (hws : rem.dropWhile isAsciiWhitespace = c :: cs)
    (ha : isAsciiAlphabetic c = false) (hn : isNumericChar c = false)
    (hp : is_current_character_punctuation ⟨c :: cs, ptab, ktab⟩ = false) :
    get_next_token ⟨rem, ptab, ktab⟩ = some (none, ⟨c :: cs, ptab, ktab⟩) := by
  simp [get_next_token, skip_whitespace, hws, ha, hn, hp]

theorem chop_identifer_eq {c : Char} {cs : List Char} (ptab ktab)
    (ha : isAsciiAlphabetic c = true) :
    chop_identifer_or_keyword_token ⟨c :: cs, ptab, ktab⟩ =
      some (match lookupTable ktab
              (String.mk ((c :: cs).takeWhile isAsciiAlphanumeric)) with
            | none =>
              Token.Identifier (String.mk ((c :: cs).takeWhile isAsciiAlphanumeric))
            | some keyword_token => keyword_token,
            ⟨(c :: cs).dropWhile isAsciiAlphanumeric, ptab, ktab⟩) := by
  simp [chop_identifer_or_keyword_token, ha]

theorem chop_integer_eq_some {rem : List Char} {v : Int} (ptab ktab)
    (hp : parseI32 (String.mk (rem.takeWhile isNumericChar)) = some v) :
    chop_integer_token ⟨rem, ptab, ktab⟩ =
      some (.Integer v, ⟨rem.dropWhile isNumericChar, ptab, ktab⟩) := by
  simp [chop_integer_token, hp]

theorem chop_integer_eq_none {rem : List Char} (ptab ktab)
    (hp : parseI32 (String.mk (rem.takeWhile isNumericChar)) = none) :
    chop_integer_token ⟨rem, ptab, ktab⟩ = none := by
  simp [chop_integer_token, hp]

theorem chop_punct_two {rest : List Char} {tok : Token} (ptab ktab)
    (hl : lookupTable ptab "==" = some tok) :
    chop_punctuation_token ⟨'=' :: '=' :: rest, ptab, ktab⟩ =
      some (tok, ⟨rest, ptab, ktab⟩) := by
  simp [chop_punctuation_token, hl]

theorem chop_punct_one_of_two {c1 c2 : Char} {rest : List Char} {tok : Token}
    (ptab ktab) (hne : (c1 = '=' ∧ c2 = '=') → False)
    (hl : lookupTable ptab (String.mk [c1]) = some tok) :
    chop_punctuation_token ⟨c1 :: c2 :: rest, ptab, ktab⟩ =
      some (tok, ⟨c2 :: rest, ptab, ktab⟩) := by
  have hb : (c1 = '=' && c2 = '=') = false := by
    cases hb2 : (decide (c1 = '=') && decide (c2 = '=')) with
    | false => rfl
    | true =>
      simp only [Bool.and_eq_true, decide_eq_true_eq] at hb2
      exact absurd hb2 hne
  simp [chop_punctuation_token, hb, hl]

theorem chop_punct_single {c1 : Char} {tok : Token} (ptab ktab)
    (hl : lookupTable ptab (String.mk [c1]) = some tok) :
    chop_punctuation_token ⟨[c1], ptab, ktab⟩ =
      some (tok, ⟨[], ptab, ktab⟩) := by
  simp [chop_punctuation_token, hl]

theorem isAsciiAlphanumeric_of_alpha {c : Char}
    (h : isAsciiAlphabetic c = true) : isAsciiAlphanumeric c = true := by
  simp [isAsciiAlphanumeric, h]

theorem length_dropWhile_lt_of_head {p : Char → Bool} {c : Char} {cs : List Char}
    (h : p c = true) : ((c :: cs).dropWhile p).length < (c :: cs).length := by
  simp only [List.dropWhile_cons, h, if_true, List.length_cons]
  exact Nat.lt_succ_of_le (List.dropWhile_suffix p).length_le

/-- Anatomy of one `get_next_token` call: the tables are untouched, the
remaining input is replaced by one of its own suffixes, and whenever a token
is produced at least one character beyond the skipped whitespace has been
consumed. -/
theorem get_next_token_anatomy {t : Tokenizer} {otok : Option Token}
    {t' : Tokenizer} (h : get_next_token t = some (otok, t')) :
    t'.punctuation_to_token = t.punctuation_to_token ∧
      t'.keyword_to_token = t.keyword_to_token ∧
      t'.remaining_input <:+ t.remaining_input ∧
      (otok.isSome = true →
        t'.remaining_input.length < (skip_whitespace t).remaining_input.length) := by
  obtain ⟨rem, ptab, ktab⟩ := t
  have hsuf : rem.dropWhile isAsciiWhitespace <:+ rem := List.dropWhile_suffix _
  have hskip : (skip_whitespace ⟨rem, ptab, ktab⟩).remaining_input =
      rem.dropWhile isAsciiWhitespace := rfl
  rcases hd : rem.dropWhile isAsciiWhitespace with _ | ⟨c, cs⟩
  · rw [get_next_token_empty ptab ktab hd] at h
    simp only [Option.some.injEq, Prod.mk.injEq] at h
    obtain ⟨ho, hst⟩ := h
    subst hst
    subst ho
    refine ⟨rfl, rfl, List.nil_suffix, ?_⟩
    simp
  · rw [hd] at hsuf
    by_cases hα : isAsciiAlphabetic c
    · rw [get_next_token_alpha ptab ktab hd hα, chop_identifer_eq ptab ktab hα] at h
      simp only [Option.map_some', Option.some.injEq, Prod.mk.injEq] at h
      obtain ⟨ho, hst⟩ := h
      subst hst
      refine ⟨rfl, rfl,
        ((List.dropWhile_suffix _).trans hsuf), ?_⟩
      intro _
      rw [hskip, hd]
      exact length_dropWhile_lt_of_head (isAsciiAlphanumeric_of_alpha hα)
    · by_cases hν : isNumericChar c
      · rw [get_next_token_numeric ptab ktab hd
          (Bool.eq_false_iff.mpr hα) hν] at h
        rcases hp : parseI32 (String.mk ((c :: cs).takeWhile isNumericChar))
          with _ | v
        · rw [chop_integer_eq_none ptab ktab hp] at h
          simp at h
        · rw [chop_integer_eq_some ptab ktab hp] at h
          simp only [Option.map_some', Option.some.injEq, Prod.mk.injEq] at h
          obtain ⟨ho, hst⟩ := h
          subst hst
          refine ⟨rfl, rfl, ((List.dropWhile_suffix _).trans hsuf), ?_⟩
          intro _
          rw [hskip, hd]
          exact length_dropWhile_lt_of_head hν
      · by_cases hπ : is_current_character_punctuation ⟨c :: cs, ptab, ktab⟩
        · rw [get_next_token_punct ptab ktab hd (Bool.eq_false_iff.mpr hα)
            (Bool.eq_false_iff.mpr hν) hπ] at h
          rcases cs with _ | ⟨c2, rest⟩
          · rcases hl : lookupTable ptab (String.mk [c]) with _ | tok
            · simp [chop_punctuation_token, hl] at h
            · rw [chop_punct_single ptab ktab hl] at h
              simp only [Option.map_some', Option.some.injEq, Prod.mk.injEq] at h
              obtain ⟨ho, hst⟩ := h
              subst hst
              refine ⟨rfl, rfl, List.IsSuffix.trans List.nil_suffix hsuf, ?_⟩
              intro _
              rw [hskip, hd]
              simp
          · by_cases he : c = '=' ∧ c2 = '='
            · obtain ⟨rfl, rfl⟩ := he
              rcases hl : lookupTable ptab "==" with _ | tok
              · simp [chop_punctuation_token, hl] at h
              · rw [chop_punct_two ptab ktab hl] at h
                simp only [Option.map_some', Option.some.injEq, Prod.mk.injEq] at h
                obtain ⟨ho, hst⟩ := h
                subst hst
                refine ⟨rfl, rfl,
                  List.IsSuffix.trans ⟨['=', '='], rfl⟩ hsuf, ?_⟩
                intro _
                rw [hskip, hd]
                simp only [List.length_cons]
                omega
            · have hb : (c = '=' && c2 = '=') = false := by
                cases hb2 : (decide (c = '=') && decide (c2 = '=')) with
                | false => rfl
                | true =>
                  simp only [Bool.and_eq_true, decide_eq_true_eq] at hb2
                  exact absurd hb2 he
              rcases hl : lookupTable ptab (String.mk [c]) with _ | tok
              · simp [chop_punctuation_token, hb, hl] at h
              · rw [chop_punct_one_of_two ptab ktab he hl] at h
                simp only [Option.map_some', Option.some.injEq, Prod.mk.injEq] at h
                obtain ⟨ho, hst⟩ := h
                subst hst
                refine ⟨rfl, rfl, List.IsSuffix.trans ⟨[c], rfl⟩ hsuf, ?_⟩
                intro _
                rw [hskip, hd]
                simp
        · rw [get_next_token_unrecognized ptab ktab hd (Bool.eq_false_iff.mpr hα)
            (Bool.eq_false_iff.mpr hν) (Bool.eq_false_iff.mpr hπ)] at h
          simp only [Option.some.injEq, Prod.mk.injEq] at h
          obtain ⟨ho, hst⟩ := h
          subst hst
          subst ho
          refine ⟨rfl, rfl, hsuf, ?_⟩
          simp

theorem dropWhile_eq_nil_of_all {p : Char → Bool} {l : List Char}
    (h : ∀ c ∈ l, p c = true) : l.dropWhile p = [] := by
  have h2 := dropWhile_append_of_all (p := p) ([] : List Char) h
  rwa [List.append_nil] at h2

/-- The fuel supplied by `tokenize` is never exhausted: the loop always
reaches a panic or a normal return within `length + 1` steps. -/
theorem tokenize_loop_no_fuelOut {fuel : Nat} : ∀ {t : Tokenizer},
    t.remaining_input.length < fuel → tokenize_loop fuel t ≠ .fuelOut := by
  induction fuel with
  | zero => intro t h; exact absurd h (Nat.not_lt_zero _)
  | succ n ih =>
    intro t h
    simp only [tokenize_loop]
    rcases hg : get_next_token t with _ | ⟨otok, t'⟩
    · simp
    · rcases otok with _ | tok
      · simp
      · have ha := get_next_token_anatomy hg
        have h1 := ha.2.2.2 (by simp)
        have h2 : (skip_whitespace t).remaining_input.length ≤
            t.remaining_input.length := (List.dropWhile_suffix _).length_le
        have hlt : t'.remaining_input.length < n := by omega
        rcases hr : tokenize_loop n t' with _ | ts | _
        · simp [hr]
        · simp [hr]
        · exact absurd hr (ih hlt)

theorem tokenize_ne_fuelOut (input : String) : tokenize input ≠ .fuelOut :=
  tokenize_loop_no_fuelOut (Nat.lt_succ_self _)

theorem get_next_token_ws_prepend {ws : List Char} (cs : List Char) (ptab ktab)
    (h : ∀ c ∈ ws, isAsciiWhitespace c = true) :
    get_next_token ⟨ws ++ cs, ptab, ktab⟩ = get_next_token ⟨cs, ptab, ktab⟩ := by
  simp only [get_next_token, skip_whitespace]
  rw [dropWhile_append_of_all _ h]

theorem tokenize_loop_ws_prepend (fuel : Nat) {ws : List Char}
    (cs : List Char) (ptab ktab) (h : ∀ c ∈ ws, isAsciiWhitespace c = true) :
    tokenize_loop fuel ⟨ws ++ cs, ptab, ktab⟩ =
      tokenize_loop fuel ⟨cs, ptab, ktab⟩ := by
  cases fuel with
  | zero => rfl
  | succ n =>
    simp only [tokenize_loop]
    rw [get_next_token_ws_prepend cs ptab ktab h]

theorem char_le_iff {a b : Char} : a ≤ b ↔ a.toNat ≤ b.toNat := by
  rw [Char.le_def]
  exact UInt32.le_def

/-- A character accepted by `char::is_numeric` is never ASCII-alphabetic:
ASCII digits precede `'A'`, and the further numeric code points lie above
U+007F while the ASCII letters end at `'z'`. -/
theorem not_alpha_of_numeric {c : Char} (h : isNumericChar c = true) :
    isAsciiAlphabetic c = false := by
  have e0 : ('0' : Char).toNat = 48 := rfl
  have e9 : ('9' : Char).toNat = 57 := rfl
  have eA : ('A' : Char).toNat = 65 := rfl
  have eZ : ('Z' : Char).toNat = 90 := rfl
  have ea : ('a' : Char).toNat = 97 := rfl
  have ez : ('z' : Char).toNat = 122 := rfl
  simp only [isNumericChar, isAsciiDigit, Bool.or_eq_true, Bool.and_eq_true,
    decide_eq_true_eq] at h
  have hn : c.toNat ≤ 57 ∨ 127 < c.toNat := by
    rcases h with ⟨h1, h2⟩ | ⟨h1, _⟩
    · left
      have := char_le_iff.mp h2
      omega
    · right
      exact h1
  cases hA : isAsciiAlphabetic c
  · rfl
  · exfalso
    simp only [isAsciiAlphabetic, Bool.or_eq_true, Bool.and_eq_true,
      decide_eq_true_eq] at hA
    rcases hA with ⟨h1, h2⟩ | ⟨h1, h2⟩
    · have l1 := char_le_iff.mp h1
      have l2 := char_le_iff.mp h2
      omega
    · have l1 := char_le_iff.mp h1
      have l2 := char_le_iff.mp h2
      omega

/-! ## The claims -/

/-- C10: `tokenize` terminates on every finite input.  Each
`get_next_token` call that returns a token first removes the skipped
whitespace (which never lengthens the buffer) and then consumes at least one
further character, so the driver loop makes strictly decreasing progress; the
`length + 1` fuel budget of `tokenize` is therefore never exhausted and the
loop always reaches a terminal outcome. -/
theorem tokenize_terminates :
    (∀ (t : Tokenizer) (tok : Token) (t' : Tokenizer),
        get_next_token t = some (some tok, t') →
        (skip_whitespace t).remaining_input.length ≤ t.remaining_input.length ∧
          t'.remaining_input.length <
            (skip_whitespace t).remaining_input.length) ∧
      ∀ input : String, tokenize input ≠ LoopOut.fuelOut := by
  constructor
  · intro t tok t' h
    exact ⟨(List.dropWhile_suffix _).length_le,
      (get_next_token_anatomy h).2.2.2 (by simp)⟩
  · exact tokenize_ne_fuelOut

theorem tokenize_terminates_witness :
    ((skip_whitespace (mkState [' ', '4', '2'])).remaining_input.length ≤
        (mkState [' ', '4', '2']).remaining_input.length ∧
      (mkState []).remaining_input.length <
        (skip_whitespace (mkState [' ', '4', '2'])).remaining_input.length) ∧
      tokenize "42" ≠ LoopOut.fuelOut :=
  ⟨tokenize_terminates.1 (mkState [' ', '4', '2']) (Token.Integer 42)
      (mkState []) (by decide),
    tokenize_terminates.2 "42"⟩

/-- C9: every `get_next_token` call mutates only the remaining-input
state, replacing it by one of its own suffixes (so it shrinks monotonically,
never grows, never reorders), and leaves the punctuation table and keyword
table unchanged. -/
theorem get_next_token_mutates_only_input {t : Tokenizer} {otok : Option Token}
    {t' : Tokenizer} (h : get_next_token t = some (otok, t')) :
    t'.remaining_input <:+ t.remaining_input ∧
      t'.punctuation_to_token = t.punctuation_to_token ∧
      t'.keyword_to_token = t.keyword_to_token := by
  obtain ⟨h1, h2, h3, _⟩ := get_next_token_anatomy h
  exact ⟨h3, h1, h2⟩

theorem get_next_token_mutates_only_input_witness :
    (mkState []).remaining_input <:+ (mkState [' ', '=', '=']).remaining_input ∧
      (mkState []).punctuation_to_token =
        (mkState [' ', '=', '=']).punctuation_to_token ∧
      (mkState []).keyword_to_token =
        (mkState [' ', '=', '=']).keyword_to_token :=
  @get_next_token_mutates_only_input (mkState [' ', '=', '='])
    (some Token.Equals) (mkState []) (by decide)

/-- C2: when the next non-whitespace lead character is neither
ASCII-alphabetic, nor numeric, nor a recognized punctuation symbol, the
scanner signals `None` — exactly the end-of-stream outcome — so the driver
stops and returns only the tokens produced so far, silently discarding the
remainder of the input. -/
theorem unrecognized_character_stops (t : Tokenizer) (c : Char) (cs : List Char)
    (hws : t.remaining_input.dropWhile isAsciiWhitespace = c :: cs)
    (ha : isAsciiAlphabetic c = false) (hn : isNumericChar c = false)
    (hp : lookupTable t.punctuation_to_token (String.mk [c]) = none) :
    get_next_token t = some (none, skip_whitespace t) ∧
      ∀ fuel : Nat, tokenize_loop (fuel + 1) t = LoopOut.done [] := by
  obtain ⟨rem, ptab, ktab⟩ := t
  have hπ : is_current_character_punctuation ⟨c :: cs, ptab, ktab⟩ = false := by
    simp [is_current_character_punctuation, hp]
  have h1 := get_next_token_unrecognized ptab ktab hws ha hn hπ
  constructor
  · rw [h1, skip_whitespace_mk, hws]
  · intro fuel
    simp only [tokenize_loop]
    rw [h1]

theorem unrecognized_character_stops_witness :
    (get_next_token (mkState ['@', 'b']) =
        some (none, skip_whitespace (mkState ['@', 'b'])) ∧
      tokenize_loop 5 (mkState ['@', 'b']) = LoopOut.done []) ∧
      tokenize "ab @ cd" = LoopOut.done [Token.Identifier "ab"] :=
  ⟨⟨(unrecognized_character_stops (mkState ['@', 'b']) '@' ['b'] (by decide)
        (by decide) (by decide) (by decide)).1,
    (unrecognized_character_stops (mkState ['@', 'b']) '@' ['b'] (by decide)
        (by decide) (by decide) (by decide)).2 4⟩,
    by decide⟩

/-- C3: whenever scanning reaches a position whose remaining input
(after whitespace skipping) starts with `"=="`, the scanner consumes both
characters and emits exactly one `Equals` token — never two consecutive
`Assignment` tokens for those two characters — because the two-character
lookahead runs before the single-character punctuation path. -/
theorem equals_longest_match (t : Tokenizer) (rest : List Char)
    (hpt : t.punctuation_to_token = punctuation_to_token)
    (hws : t.remaining_input.dropWhile isAsciiWhitespace = '=' :: '=' :: rest) :
    get_next_token t =
      some (some Token.Equals, { t with remaining_input := rest }) := by
  obtain ⟨rem, ptab, ktab⟩ := t
  simp only at hpt
  subst hpt
  have hπ : is_current_character_punctuation
      ⟨'=' :: '=' :: rest, punctuation_to_token, ktab⟩ = true := rfl
  rw [get_next_token_punct punctuation_to_token ktab hws (by decide) (by decide)
    hπ, @chop_punct_two rest Token.Equals punctuation_to_token ktab (by decide)]
  simp

theorem equals_longest_match_witness :
    get_next_token (mkState [' ', '=', '=', '+']) =
        some (some Token.Equals, mkState ['+']) ∧
      tokenize "a==b" = LoopOut.done
        [Token.Identifier "a", Token.Equals, Token.Identifier "b"] :=
  ⟨equals_longest_match (mkState [' ', '=', '=', '+']) ['+'] rfl (by decide),
    by decide⟩

/-- C4: the identifier-or-keyword scan consumes the maximal run of ASCII
alphanumeric characters before any keyword lookup; when the full run is not a
keyword the token is `Identifier` of the whole run, even if a proper prefix
of the run is a keyword — so `"letx"` yields the single token
`Identifier("letx")`, never `Let` followed by an identifier. -/
theorem maximal_munch_identifier (t : Tokenizer) (c : Char) (cs : List Char)
    (hws : t.remaining_input.dropWhile isAsciiWhitespace = c :: cs)
    (ha : isAsciiAlphabetic c = true)
    (hnk : lookupTable t.keyword_to_token
        (String.mk ((c :: cs).takeWhile isAsciiAlphanumeric)) = none) :
    get_next_token t =
      some (some (Token.Identifier
          (String.mk ((c :: cs).takeWhile isAsciiAlphanumeric))),
        { t with remaining_input := (c :: cs).dropWhile isAsciiAlphanumeric }) ∧
      tokenize "letx" = LoopOut.done [Token.Identifier "letx"] := by
  obtain ⟨rem, ptab, ktab⟩ := t
  refine ⟨?_, by decide⟩
  simp only at hnk
  rw [get_next_token_alpha ptab ktab hws ha, chop_identifer_eq ptab ktab ha,
    hnk]
  simp

theorem maximal_munch_identifier_witness :
    get_next_token (mkState ['l', 'e', 't', 'x']) =
        some (some (Token.Identifier "letx"), mkState []) ∧
      tokenize "letx" = LoopOut.done [Token.Identifier "letx"] := by
  have h := maximal_munch_identifier (mkState ['l', 'e', 't', 'x']) 'l'
    ['e', 't', 'x'] (by decide) (by decide) (by decide)
  exact ⟨h.1, h.2⟩

/-- An identifier-length run whose text the keyword table maps to `tok`
always tokenizes as `tok`: the whole maximal alphanumeric run is consumed,
then looked up. -/
theorem keyword_run_chop (t : Tokenizer) (c : Char) (kcs rest : List Char)
    (tok : Token) (hkt : t.keyword_to_token = keyword_to_token)
    (hws : t.remaining_input.dropWhile isAsciiWhitespace = c :: (kcs ++ rest))
    (ha : isAsciiAlphabetic c = true)
    (hall : ∀ a ∈ c :: kcs, isAsciiAlphanumeric a = true)
    (hstop : stopsRun isAsciiAlphanumeric rest = true)
    (hlk : lookupTable keyword_to_token (String.mk (c :: kcs)) = some tok) :
    get_next_token t = some (some tok, { t with remaining_input := rest }) := by
  obtain ⟨rem, ptab, ktab⟩ := t
  simp only at hkt
  subst hkt
  obtain ⟨htw, hdw⟩ := takeWhile_run hall hstop
  have hsh : c :: (kcs ++ rest) = (c :: kcs) ++ rest := rfl
  rw [get_next_token_alpha ptab keyword_to_token hws ha,
    chop_identifer_eq ptab keyword_to_token ha, hsh, htw, hdw, hlk]
  simp

/-- C5: a maximal identifier-length run equal to `"true"` or `"false"`
tokenizes as `Boolean(true)`/`Boolean(false)`, and the runs `"let"`, `"fn"`,
`"if"`, `"else"` tokenize as the keyword tokens `Let`, `Fn`, `If`, `Else` —
never as identifiers. -/
theorem keyword_boolean_partition :
    (∀ (t : Tokenizer) (rest : List Char),
        t.keyword_to_token = keyword_to_token →
        t.remaining_input.dropWhile isAsciiWhitespace =
          't' :: 'r' :: 'u' :: 'e' :: rest →
        stopsRun isAsciiAlphanumeric rest = true →
        get_next_token t =
          some (some (Token.Boolean true), { t with remaining_input := rest })) ∧
      (∀ (t : Tokenizer) (rest : List Char),
        t.keyword_to_token = keyword_to_token →
        t.remaining_input.dropWhile isAsciiWhitespace =
          'f' :: 'a' :: 'l' :: 's' :: 'e' :: rest →
        stopsRun isAsciiAlphanumeric rest = true →
        get_next_token t =
          some (some (Token.Boolean false), { t with remaining_input := rest })) ∧
      (∀ (t : Tokenizer) (rest : List Char),
        t.keyword_to_token = keyword_to_token →
        t.remaining_input.dropWhile isAsciiWhitespace =
          'l' :: 'e' :: 't' :: rest →
        stopsRun isAsciiAlphanumeric rest = true →
        get_next_token t =
          some (some Token.Let, { t with remaining_input := rest })) ∧
      (∀ (t : Tokenizer) (rest : List Char),
        t.keyword_to_token = keyword_to_token →
        t.remaining_input.dropWhile isAsciiWhitespace = 'f' :: 'n' :: rest →
        stopsRun isAsciiAlphanumeric rest = true →
        get_next_token t =
          some (some Token.Fn, { t with remaining_input := rest })) ∧
      (∀ (t : Tokenizer) (rest : List Char),
        t.keyword_to_token = keyword_to_token →
        t.remaining_input.dropWhile isAsciiWhitespace = 'i' :: 'f' :: rest →
        stopsRun isAsciiAlphanumeric rest = true →
        get_next_token t =
          some (some Token.If, { t with remaining_input := rest })) ∧
      (∀ (t : Tokenizer) (rest : List Char),
        t.keyword_to_token = keyword_to_token →
        t.remaining_input.dropWhile isAsciiWhitespace =
          'e' :: 'l' :: 's' :: 'e' :: rest →
        stopsRun isAsciiAlphanumeric rest = true →
        get_next_token t =
          some (some Token.Else, { t with remaining_input := rest })) := by
  refine ⟨?_, ?_, ?_, ?_, ?_, ?_⟩
  · intro t rest hkt hws hstop
    exact keyword_run_chop t 't' ['r', 'u', 'e'] rest (Token.Boolean true)
      hkt hws (by decide) (by decide) hstop (by decide)
  · intro t rest hkt hws hstop
    exact keyword_run_chop t 'f' ['a', 'l', 's', 'e'] rest (Token.Boolean false)
      hkt hws (by decide) (by decide) hstop (by decide)
  · intro t rest hkt hws hstop
    exact keyword_run_chop t 'l' ['e', 't'] rest Token.Let
      hkt hws (by decide) (by decide) hstop (by decide)
  · intro t rest hkt hws hstop
    exact keyword_run_chop t 'f' ['n'] rest Token.Fn
      hkt hws (by decide) (by decide) hstop (by decide)
  · intro t rest hkt hws hstop
    exact keyword_run_chop t 'i' ['f'] rest Token.If
      hkt hws (by decide) (by decide) hstop (by decide)
  · intro t rest hkt hws hstop
    exact keyword_run_chop t 'e' ['l', 's', 'e'] rest Token.Else
      hkt hws (by decide) (by decide) hstop (by decide)

theorem keyword_boolean_partition_witness :
    get_next_token (mkState ['t', 'r', 'u', 'e']) =
        some (some (Token.Boolean true), mkState []) ∧
      get_next_token (mkState ['f', 'a', 'l', 's', 'e']) =
        some (some (Token.Boolean false), mkState []) ∧
      get_next_token (mkState ['l', 'e', 't', ' ']) =
        some (some Token.Let, mkState [' ']) ∧
      get_next_token (mkState ['f', 'n']) = some (some Token.Fn, mkState []) ∧
      get_next_token (mkState ['i', 'f']) = some (some Token.If, mkState []) ∧
      get_next_token (mkState ['e', 'l', 's', 'e']) =
        some (some Token.Else, mkState []) :=
  ⟨keyword_boolean_partition.1 (mkState ['t', 'r', 'u', 'e']) [] rfl
      (by decide) (by decide),
    keyword_boolean_partition.2.1 (mkState ['f', 'a', 'l', 's', 'e']) [] rfl
      (by decide) (by decide),
    keyword_boolean_partition.2.2.1 (mkState ['l', 'e', 't', ' ']) [' '] rfl
      (by decide) (by decide),
    keyword_boolean_partition.2.2.2.1 (mkState ['f', 'n']) [] rfl
      (by decide) (by decide),
    keyword_boolean_partition.2.2.2.2.1 (mkState ['i', 'f']) [] rfl
      (by decide) (by decide),
    keyword_boolean_partition.2.2.2.2.2 (mkState ['e', 'l', 's', 'e']) [] rfl
      (by decide) (by decide)⟩

/-- C1 (the code contradicts the claim): on a numeral whose value
exceeds the 32-bit signed range, `chop_integer_token` calls
`parse::<i32>().unwrap()`, which panics — an uncontrolled process abort
(`LoopOut.panic`), not a recoverable `IntegerOverflow` error result.  The
spec's 15-digit scenario aborts the whole pass; no token is produced. -/
theorem integer_overflow_aborts :
    parseI32 "999999999999999" = none ∧
      tokenize "999999999999999" = LoopOut.panic :=
  ⟨by decide, by decide⟩

/-- C7: the arithmetic-expression scenario: `"(abc + 123) * 34;"`
tokenizes to exactly the expected ordered sequence, and each token's
canonical render is its `<kind, literal>` form. -/
theorem scenario_arithmetic_expression :
    tokenize "(abc + 123) * 34;" =
      LoopOut.done [Token.LeftParen, Token.Identifier "abc", Token.Plus,
        Token.Integer 123, Token.RightParen, Token.Star, Token.Integer 34,
        Token.Semicolon] ∧
      [Token.LeftParen, Token.Identifier "abc", Token.Plus, Token.Integer 123,
        Token.RightParen, Token.Star, Token.Integer 34,
        Token.Semicolon].map Token.debugFmt =
        ["<(, (>", "<identifier, abc>", "<+, +>", "<integer, 123>", "<), )>",
         "<*, *>", "<integer, 34>", "<;, ;>"] :=
  ⟨by decide, by decide⟩

/-- C8 counterexample: the dispatch tests Rust `char::is_numeric`, not
ASCII-numeric.  U+0664 (ARABIC-INDIC DIGIT FOUR) is not an ASCII digit, yet
the integer scan is entered on it — `get_next_token` returns the integer
scan's result, which panics on `parse::<i32>` — instead of the
unrecognized-character outcome `some (none, _)` that the claim's
"exactly when ASCII numeric" would force. -/
theorem integer_scan_not_ascii_only :
    isAsciiDigit (Char.ofNat 0x664) = false ∧
      isNumericChar (Char.ofNat 0x664) = true ∧
      get_next_token (mkState [Char.ofNat 0x664]) =
        (chop_integer_token (mkState [Char.ofNat 0x664])).map
          (fun r => (some r.1, r.2)) ∧
      get_next_token (mkState [Char.ofNat 0x664]) = none ∧
      tokenize (String.mk [Char.ofNat 0x664]) = LoopOut.panic :=
  ⟨by decide, by decide, by decide, by decide, by decide⟩

/-- C8 amended: the integer scan is entered whenever the lead character
(after whitespace skipping) satisfies Rust `char::is_numeric` — a strict
superset of the ASCII digits — and such a character is never
ASCII-alphabetic, so the preceding identifier branch cannot capture it.  The
scan consumes the maximal run of numeric characters; when the run is a
decimal numeral fitting a 32-bit signed integer, it emits `Integer` carrying
the parsed value and exactly the run is consumed. -/
theorem integer_scan_numeric (t : Tokenizer) (c : Char) (cs : List Char)
    (hws : t.remaining_input.dropWhile isAsciiWhitespace = c :: cs)
    (hn : isNumericChar c = true) :
    isAsciiAlphabetic c = false ∧
      get_next_token t =
        (chop_integer_token ⟨c :: cs, t.punctuation_to_token,
          t.keyword_to_token⟩).map (fun r => (some r.1, r.2)) ∧
      ∀ v : Int,
        parseI32 (String.mk ((c :: cs).takeWhile isNumericChar)) = some v →
        get_next_token t = some (some (Token.Integer v),
          { t with remaining_input := (c :: cs).dropWhile isNumericChar }) := by
  obtain ⟨rem, ptab, ktab⟩ := t
  have hna := not_alpha_of_numeric hn
  refine ⟨hna, ?_, ?_⟩
  · exact get_next_token_numeric ptab ktab hws hna hn
  · intro v hv
    rw [get_next_token_numeric ptab ktab hws hna hn,
      chop_integer_eq_some ptab ktab hv]
    simp

theorem integer_scan_numeric_witness :
    isAsciiAlphabetic '3' = false ∧
      get_next_token (mkState ['3', '4', ';']) =
        some (some (Token.Integer 34), mkState [';']) := by
  have h := integer_scan_numeric (mkState ['3', '4', ';']) '3' ['4', ';']
    (by decide) (by decide)
  exact ⟨h.1, h.2.2 34 (by decide)⟩

/-- Two inputs carrying the same lexeme sequence and differing only in the
ASCII-whitespace runs between (and after) those lexemes.  A lexeme is a chunk
that one `get_next_token` call consumes exactly, emitting the same token in
both inputs — which is precisely the "no merging of adjacent lexemes"
condition: if removing a separator merged two lexemes, the chunk would no
longer scan to its own token with exactly the rest remaining. -/
inductive Sim : List Char → List Char → Prop where
  | ws : ∀ u v : List Char, (∀ c ∈ u, isAsciiWhitespace c = true) →
      (∀ c ∈ v, isAsciiWhitespace c = true) → Sim u v
  | lex : ∀ (lexeme u v cs ds : List Char) (tok : Token),
      (∀ c ∈ u, isAsciiWhitespace c = true) →
      (∀ c ∈ v, isAsciiWhitespace c = true) →
      get_next_token (mkState (lexeme ++ u ++ cs)) =
        some (some tok, mkState (u ++ cs)) →
      get_next_token (mkState (lexeme ++ v ++ ds)) =
        some (some tok, mkState (v ++ ds)) →
      Sim cs ds → Sim (lexeme ++ u ++ cs) (lexeme ++ v ++ ds)

theorem tokenize_loop_stop {fuel : Nat} {t t2 : Tokenizer}
    (h : get_next_token t = some (none, t2)) :
    tokenize_loop (fuel + 1) t = .done [] := by
  simp only [tokenize_loop]
  rw [h]

theorem tokenize_loop_step {fuel : Nat} {t t' : Tokenizer} {tok : Token}
    (h : get_next_token t = some (some tok, t')) :
    tokenize_loop (fuel + 1) t =
      match tokenize_loop fuel t' with
      | .done ts => .done (tok :: ts)
      | r => r := by
  simp only [tokenize_loop]
  rw [h]

/-- C6: inserting or removing runs of ASCII whitespace between lexemes
(without merging adjacent lexemes, captured by the `Sim` relation) never
changes the token sequence produced by `tokenize`. -/
theorem whitespace_invariance (x y : List Char) (h : Sim x y) :
    tokenize (String.mk x) = tokenize (String.mk y) := by
  have key : ∀ f g : Nat, x.length < f → y.length < g →
      tokenize_loop f (mkState x) = tokenize_loop g (mkState y) := by
    induction h with
    | ws u v hu hv =>
      intro f g hf hg
      cases f with
      | zero => exact absurd hf (Nat.not_lt_zero _)
      | succ f2 =>
        cases g with
        | zero => exact absurd hg (Nat.not_lt_zero _)
        | succ g2 =>
          simp only [mkState]
          rw [tokenize_loop_stop (get_next_token_empty
              MonkeyLex.punctuation_to_token MonkeyLex.keyword_to_token
              (dropWhile_eq_nil_of_all hu)),
            tokenize_loop_stop (get_next_token_empty
              MonkeyLex.punctuation_to_token MonkeyLex.keyword_to_token
              (dropWhile_eq_nil_of_all hv))]
    | lex lexeme u v cs ds tok hu hv h1 h2 hsim ih =>
      intro f g hf hg
      cases f with
      | zero => exact absurd hf (Nat.not_lt_zero _)
      | succ f2 =>
        cases g with
        | zero => exact absurd hg (Nat.not_lt_zero _)
        | succ g2 =>
          have hx1 := (get_next_token_anatomy h1).2.2.2 (by simp)
          have hx2 := (get_next_token_anatomy h2).2.2.2 (by simp)
          simp only [mkState, skip_whitespace] at hx1 hx2
          have hy1 : (List.dropWhile isAsciiWhitespace
              (lexeme ++ u ++ cs)).length ≤ (lexeme ++ u ++ cs).length :=
            (List.dropWhile_suffix _).length_le
          have hy2 : (List.dropWhile isAsciiWhitespace
              (lexeme ++ v ++ ds)).length ≤ (lexeme ++ v ++ ds).length :=
            (List.dropWhile_suffix _).length_le
          have hl1 : (u ++ cs).length = u.length + cs.length := by simp
          have hl2 : (v ++ ds).length = v.length + ds.length := by simp
          have hcs : cs.length < f2 := by omega
          have hds : ds.length < g2 := by omega
          simp only [mkState] at h1 h2 ih ⊢
          rw [tokenize_loop_step h1, tokenize_loop_step h2,
            tokenize_loop_ws_prepend f2 cs _ _ hu,
            tokenize_loop_ws_prepend g2 ds _ _ hv, ih f2 g2 hcs hds]
  exact key (x.length + 1) (y.length + 1) (Nat.lt_succ_self _)
    (Nat.lt_succ_self _)

theorem whitespace_invariance_witness :
    tokenize "1+2" = tokenize "1 + 2" ∧
      tokenize "1+2" = LoopOut.done
        [Token.Integer 1, Token.Plus, Token.Integer 2] := by
  refine ⟨?_, by decide⟩
  have s2 : Sim ['2'] ['2'] :=
    Sim.lex ['2'] [] [] [] [] (Token.Integer 2) (by simp) (by simp)
      (by decide) (by decide) (Sim.ws [] [] (by simp) (by simp))
  have s1 : Sim ['+', '2'] ['+', ' ', '2'] :=
    Sim.lex ['+'] [] [' '] ['2'] ['2'] Token.Plus (by simp) (by decide)
      (by decide) (by decide) s2
  have s0 : Sim ['1', '+', '2'] ['1', ' ', '+', ' ', '2'] :=
    Sim.lex ['1'] [] [' '] ['+', '2'] ['+', ' ', '2'] (Token.Integer 1)
      (by simp) (by decide) (by decide) (by decide) s1
  exact whitespace_invariance ['1', '+', '2'] ['1', ' ', '+', ' ', '2'] s0

end MonkeyLex
